import Mathlib

/-!
# A verification model of the `go_demo_game` sound mixer (`sound.go`)

This file gives a shallow embedding of the data model and the operations of
the software audio mixer in `sound.go` and proves properties about it.

Modelling conventions:

* Go `int` values (handles, byte offsets, sample counts) are modelled as `ℤ`
  (or `ℕ` for list indices); Go `%` and `/` on `int` are truncated division,
  modelled with `Int.tmod` / `Int.tdiv`.
* Go `float64` position and speed arithmetic is modelled exactly over `ℚ`.
* The external collaborators (the DirectSound device, the asset file system
  and the ogg/mp3 decoders) are modelled as explicit parameters holding the
  outcome of each external call, so that every path of the Go code is a path
  of the model.
* Slices mutated in place are modelled as lists; in-place writes become
  `List.set`, and truncation `s[:n]` becomes dropping the tail.
-/

namespace Demo

/-- Go: `const invalidSoundHandle soundHandle = 0`.  Go's handle type
`soundHandle` is an `int`; handles are written plainly as `ℤ` here. -/
def invalidSoundHandle : ℤ := 0

/-- Go: `soundWriteAheadSamples = 4096`. -/
def soundWriteAheadSamples : ℕ := 4096

/-- Go `soundSample`: one stereo frame, two `int16` channel values
(`channels [2]int16`, here the two named fields `left` and `right`). -/
structure soundSample where
  left : ℤ
  right : ℤ
  deriving DecidableEq, Repr

/-- Go `mixSample`: one stereo frame of the `int32` mix accumulator.
The model uses unbounded `ℤ`; `int32` wrap-around of the accumulator is not
reachable for realistic instance counts and no claim depends on it. -/
structure mixSample where
  left : ℤ
  right : ℤ
  deriving DecidableEq, Repr

/-- Go `soundState`: one playback instance. -/
structure soundState where
  handle : ℤ
  samples : List soundSample
  pos : ℚ
  lastSpeed : ℚ
  speed : ℚ
  looping : Bool
  queued : Bool
  deriving DecidableEq, Repr

/-- Go: `type consecutiveSounds [2]soundHandle`; the pair is
`(afterHandle, nextHandle)` — `q.1` is `q[0]`, `q.2` is `q[1]`. -/
abbrev consecutiveSounds := ℤ × ℤ

/-- Go `soundState.isOver`: `!s.looping && s.pos >= float64(len(s.samples)-1)`. -/
def soundState.isOver (s : soundState) : Bool :=
  !s.looping && decide ((s.samples.length : ℚ) - 1 ≤ s.pos)

/-- Go `soundSystem`. The hardware objects (`dsound`, `mixBuffer`) and the
scratch render buffers (`writeAheadBuffer`, `writeAheadMixBuffer`, documented
in the source as temporaries) are not part of the modelled state; the sound
cache `loadedSounds` is modelled separately with `loadRawSamples` below. -/
structure soundSystem where
  mixBufferSize : ℤ
  lastWritePos : ℤ
  playingSounds : List soundState
  nextHandle : ℤ
  queue : List consecutiveSounds
  deriving DecidableEq, Repr

/-- Go `initSoundSystem`: `BlockAlign = (Channels * BitsPerSample) / 8`. -/
def soundBlockAlign : ℤ := (2 * 16) / 8

/-- Go `initSoundSystem`: `AvgBytesPerSec = SamplesPerSec * BlockAlign`. -/
def soundAvgBytesPerSec : ℤ := 44100 * soundBlockAlign

/-- Go `initSoundSystem`: `bufferSize := 2 * soundFormat.AvgBytesPerSec`,
then incremented until divisible by 4. `2 * 176400 = 352800` is already
divisible by 4, so the adjustment loop of the source is a no-op. -/
def initialMixBufferSize : ℤ := 2 * soundAvgBytesPerSec

/-- The state built by a successful `initSoundSystem`: `nextHandle` starts at
`1`; all other modelled fields start at their Go zero values. -/
def initialSoundSystem : soundSystem :=
  { mixBufferSize := initialMixBufferSize
    lastWritePos := 0
    playingSounds := []
    nextHandle := 1
    queue := [] }

/-!
## Position wrapping (`wrapSoundPos`)

Go:
```
func wrapSoundPos(pos float64, sampleCount int) float64 {
    n := float64(sampleCount) - 1
    for pos < 0 { pos += n }
    for pos > n { pos -= n }
    return pos
}
```
The two loops are modelled by `wrapUp` and `wrapDown`.  The source loops
diverge when `n ≤ 0` (that is, `sampleCount ≤ 1`); the model's guards return
`pos` unchanged in that case, and agree with the source whenever the source
terminates.
-/

/-- The first loop of `wrapSoundPos`: `for pos < 0 { pos += n }`. -/
def wrapUp (n : ℚ) (pos : ℚ) : ℚ :=
  if h : 0 < n ∧ pos < 0 then wrapUp n (pos + n) else pos
termination_by (⌈-pos / n⌉).toNat
decreasing_by
  have hn : (0 : ℚ) < n := h.1
  have hp : pos < 0 := h.2
  have hstep : ⌈-(pos + n) / n⌉ = ⌈-pos / n⌉ - 1 := by
    have : -(pos + n) / n = -pos / n - 1 := by
      field_simp
      ring
    rw [this, Int.ceil_sub_one]
  have hpos : 0 < ⌈-pos / n⌉ :=
    Int.ceil_pos.mpr (div_pos (by linarith) hn)
  rw [hstep]
  omega

/-- The second loop of `wrapSoundPos`: `for pos > n { pos -= n }`. -/
def wrapDown (n : ℚ) (pos : ℚ) : ℚ :=
  if h : 0 < n ∧ n < pos then wrapDown n (pos - n) else pos
termination_by (⌈pos / n⌉).toNat
decreasing_by
  have hn : (0 : ℚ) < n := h.1
  have hp : n < pos := h.2
  have hstep : ⌈(pos - n) / n⌉ = ⌈pos / n⌉ - 1 := by
    have : (pos - n) / n = pos / n - 1 := by
      field_simp
    rw [this, Int.ceil_sub_one]
  have hpos : 1 < ⌈pos / n⌉ := by
    have h1 : (1 : ℚ) < pos / n := (one_lt_div hn).mpr hp
    have := Int.lt_ceil.mpr (by exact_mod_cast h1 : ((1 : ℤ) : ℚ) < pos / n)
    omega
  rw [hstep]
  omega

/-- Go `wrapSoundPos`: wrap `pos` into the loop range using the wrap period
`n = float64(sampleCount) - 1`. -/
def wrapSoundPos (pos : ℚ) (sampleCount : ℕ) : ℚ :=
  wrapDown ((sampleCount : ℚ) - 1) (wrapUp ((sampleCount : ℚ) - 1) pos)

theorem wrapUp_nonneg (n pos : ℚ) (hn : 0 < n) : 0 ≤ wrapUp n pos := by
  induction pos using wrapUp.induct n with
  | case1 x h ih =>
    rw [wrapUp, dif_pos h]
    exact ih
  | case2 x h =>
    rw [wrapUp, dif_neg h]
    push_neg at h
    exact h hn

theorem wrapDown_le (n pos : ℚ) (hn : 0 < n) : wrapDown n pos ≤ n := by
  induction pos using wrapDown.induct n with
  | case1 x h ih =>
    rw [wrapDown, dif_pos h]
    exact ih
  | case2 x h =>
    rw [wrapDown, dif_neg h]
    push_neg at h
    exact h hn

theorem wrapDown_nonneg (n pos : ℚ) (hn : 0 < n) (hp : 0 ≤ pos) :
    0 ≤ wrapDown n pos := by
  revert hp
  induction pos using wrapDown.induct n with
  | case1 x h ih =>
    intro hp
    rw [wrapDown, dif_pos h]
    exact ih (by linarith [h.1, h.2])
  | case2 x h =>
    intro hp
    rw [wrapDown, dif_neg h]
    exact hp

/-- **C6.** The looping wrap uses wrap period `len - 1` (not `len`): for any
clip with `sampleCount ≥ 2` samples and any (exact) position value, the
wrapped value lies in the closed interval `[0, sampleCount - 1]`.  Wrapping
acts by repeatedly adding (`wrapUp`) or subtracting (`wrapDown`) the period
`sampleCount - 1` until the value is in range, exactly as the two loops of
the source do. -/
theorem c6_wrap_range (pos : ℚ) (sampleCount : ℕ) (h : 2 ≤ sampleCount) :
    0 ≤ wrapSoundPos pos sampleCount ∧
      wrapSoundPos pos sampleCount ≤ (sampleCount : ℚ) - 1 := by
  have hn : (0 : ℚ) < (sampleCount : ℚ) - 1 := by
    have : (2 : ℚ) ≤ (sampleCount : ℚ) := by exact_mod_cast h
    linarith
  unfold wrapSoundPos
  exact ⟨wrapDown_nonneg _ _ hn (wrapUp_nonneg _ _ hn), wrapDown_le _ _ hn⟩

/-- Witness for `c6_wrap_range` at clip length 3 and position `-5`. -/
theorem c6_wrap_range_witness :
    2 ≤ 3 ∧ (0 ≤ wrapSoundPos (-5) 3 ∧ wrapSoundPos (-5) 3 ≤ (3 : ℚ) - 1) :=
  ⟨by decide, c6_wrap_range (-5) 3 (by decide)⟩

/-!
## Rounding, cursor distance, hard clipping
-/

/-- Go float-to-int conversion `int(x)`: truncation toward zero. -/
def goTrunc (x : ℚ) : ℤ := if x < 0 then ⌈x⌉ else ⌊x⌋

/-- Go `round`: `if x < 0 { return int(x - 0.5) }; return int(x + 0.5)` —
nearest integer, ties away from zero. -/
def round (x : ℚ) : ℤ :=
  if x < 0 then goTrunc (x - 1/2) else goTrunc (x + 1/2)

/-- Go `soundSystem.writeSampleDist`:
```
d := b - a
if d < 0 { d = s.mixBufferSize - a + b }
if d%4 != 0 { panic("why does the sound card play partial samples?") }
return d / 4
```
`none` models the `panic`; Go `%` and `/` on `int` are `Int.tmod` and
`Int.tdiv`. -/
def soundSystem.writeSampleDist (s : soundSystem) (a b : ℤ) : Option ℤ :=
  let d := b - a
  let d := if d < 0 then s.mixBufferSize - a + b else d
  if d.tmod 4 ≠ 0 then none else some (d.tdiv 4)

/-- The circular byte distance from `a` forward to `b` in a ring buffer of
`size` bytes, wrapping modulo the buffer size (the quantity the spec calls
the "circular distance"). -/
def circularByteDist (size a b : ℤ) : ℤ := (b - a) % size

/-- The two sequential clamping `if`s of `update` (`x > 32767 → 32767`,
then `x < -32768 → -32768`); the subsequent Go `int16(x)` conversion is
value-preserving because the clamped value is always in `int16` range. -/
def clipToInt16 (x : ℤ) : ℤ :=
  let x1 := if x > 32767 then 32767 else x
  let x2 := if x1 < -32768 then -32768 else x1
  x2

/-- One iteration of the narrowing loop of `update`: clamp both channels of
an accumulator frame into the output sample. -/
def clipFrame (m : mixSample) : soundSample :=
  { left := clipToInt16 m.left, right := clipToInt16 m.right }

/-!
## The per-tick mixing engine (`update`)
-/

/-- The position-advance part of the per-sound loop of `update`:
```
if sound.queued { continue }
sound.pos += float64(playedSamples) * sound.lastSpeed
if sound.looping { sound.pos = wrapSoundPos(sound.pos, len(sound.samples)) }
```
-/
def advanceSound (playedSamples : ℤ) (st : soundState) : soundState :=
  if st.queued then st
  else
    let pos := st.pos + (playedSamples : ℚ) * st.lastSpeed
    let pos := if st.looping then wrapSoundPos pos st.samples.length else pos
    { st with pos := pos }

/-- The contribution of one (already advanced) sound to write-ahead slot `i`:
```
pos := sound.pos + float64(i)*sound.speed
if sound.looping { pos = wrapSoundPos(pos, len(sound.samples)) }
j := round(pos)
if 0 <= j && j < len(sound.samples) { ... += int32(sound.samples[j].channels[c]) }
```
A `queued` sound is skipped by the outer loop (`continue`) and contributes
nothing. -/
def contribution (st : soundState) (i : ℕ) : mixSample :=
  if st.queued then { left := 0, right := 0 }
  else
    let pos := st.pos + (i : ℚ) * st.speed
    let pos := if st.looping then wrapSoundPos pos st.samples.length else pos
    let j := round pos
    if 0 ≤ j ∧ j < (st.samples.length : ℤ) then
      let sample := st.samples.getD j.toNat { left := 0, right := 0 }
      { left := sample.left, right := sample.right }
    else { left := 0, right := 0 }

/-- Slot `i` of the write-ahead mix accumulator: the channel-wise sum of all
sounds' contributions, starting from the zeroed accumulator (the source
zeroes `writeAheadMixBuffer` at the top of `update`). -/
def mixAt (sounds : List soundState) (i : ℕ) : mixSample :=
  sounds.foldl
    (fun acc st =>
      { left := acc.left + (contribution st i).left
        right := acc.right + (contribution st i).right })
    { left := 0, right := 0 }

/-!
## The reclamation pass of `update`

Go (`update`, after the unlock):
```
n := 0
for i := range s.playingSounds {
    if s.playingSounds[i].isOver() {
        queueN := 0
        for _, q := range s.queue {
            if q[0] == s.playingSounds[i].handle {
                if follow := s.soundFromHandle(q[1]); follow != nil {
                    follow.queued = false
                }
            } else {
                s.queue[queueN] = q
                queueN++
            }
        }
    } else {
        s.playingSounds[n] = s.playingSounds[i]
        n++
    }
}
s.playingSounds = s.playingSounds[:n]
```
Note that the inner loop compacts `s.queue` in place through `queueN` but the
source never truncates it (`s.queue = s.queue[:queueN]` is absent), so the
positions from `queueN` to the end keep their old values.
-/

/-- `soundFromHandle(h)` followed by `follow.queued = false`: set `queued` of
the first sound in the list whose handle is `h` (handles of live sounds are
unique, so the first match is the live instance), or do nothing when no sound
has that handle. -/
def setQueuedFalse (handle : ℤ) : List soundState → List soundState
  | [] => []
  | st :: rest =>
    if st.handle = handle then { st with queued := false } :: rest
    else st :: setQueuedFalse handle rest

/-- `soundFromHandle` scans the whole `playingSounds` slice.  During the
compaction the live copies appear in scan order as: the already-kept
survivors, then the sound `current` being examined, then the not yet
processed rest (stale slots between the regions hold values whose handles
also occur earlier, so the first match is never a stale slot).  The mutation
therefore lands on the first match across `(survivors, current, rest)`; a
match on `current` has no effect because `current` is being removed. -/
def setQueuedFalseMid (handle : ℤ) (survivors : List soundState)
    (current : soundState) (rest : List soundState) :
    List soundState × List soundState :=
  if survivors.any (fun st => st.handle == handle) then
    (setQueuedFalse handle survivors, rest)
  else if current.handle = handle then (survivors, rest)
  else (survivors, setQueuedFalse handle rest)

/-- The inner queue loop for one finished handle `h`.  The first list
argument is the remaining entries to read (the loop reads the original
values: writes only go to already-read positions), `buf` is the queue array
being written in place at position `qN`, and `fired` collects the
`nextHandle` targets of consumed links, in firing order.  The returned `buf`
is **not** truncated to `qN` — faithfully to the source, which omits the
truncation. -/
def queueScan (h : ℤ) :
    List consecutiveSounds → List consecutiveSounds → ℕ → List ℤ →
    List consecutiveSounds × List ℤ
  | [], buf, _, fired => (buf, fired.reverse)
  | q :: rest, buf, qN, fired =>
    if q.1 = h then queueScan h rest buf qN (q.2 :: fired)
    else queueScan h rest (buf.set qN q) (qN + 1) fired

theorem setQueuedFalse_length (h : ℤ) (l : List soundState) :
    (setQueuedFalse h l).length = l.length := by
  induction l with
  | nil => rfl
  | cons st rest ih =>
    rw [setQueuedFalse]
    split
    · simp
    · simp [ih]

theorem setQueuedFalseMid_snd_length (h : ℤ)
    (survivors : List soundState) (current : soundState)
    (rest : List soundState) :
    (setQueuedFalseMid h survivors current rest).2.length = rest.length := by
  rw [setQueuedFalseMid]
  split
  · rfl
  · split
    · rfl
    · simp [setQueuedFalse_length]

theorem foldFired_snd_length (current : soundState) (fired : List ℤ)
    (p : List soundState × List soundState) :
    (fired.foldl (fun p t => setQueuedFalseMid t p.1 current p.2) p).2.length
      = p.2.length := by
  induction fired generalizing p with
  | nil => rfl
  | cons t ts ih =>
    rw [List.foldl_cons, ih, setQueuedFalseMid_snd_length]

/-- The reclamation pass: walk `playingSounds` keeping the not-over sounds
(`survivors`, the compacted-and-truncated prefix) and, for each finished
sound, consume its chain links (`queueScan`) and un-queue each fired target
(`setQueuedFalseMid`, the model of `soundFromHandle(q[1]).queued = false`). -/
def reclaimLoop (survivors : List soundState) (qs : List consecutiveSounds) :
    List soundState → List soundState × List consecutiveSounds
  | [] => (survivors, qs)
  | st :: rest =>
    if st.isOver then
      reclaimLoop
        ((queueScan st.handle qs qs 0 []).2.foldl
          (fun p t => setQueuedFalseMid t p.1 st p.2) (survivors, rest)).1
        (queueScan st.handle qs qs 0 []).1
        ((queueScan st.handle qs qs 0 []).2.foldl
          (fun p t => setQueuedFalseMid t p.1 st p.2) (survivors, rest)).2
    else
      reclaimLoop (survivors ++ [st]) qs rest
termination_by l => l.length
decreasing_by
  · simp [foldFired_snd_length]
  · simp

/-!
## `update` itself

The external calls of one tick and their outcomes:
`mixBuffer.Lock` (`lockOk`), `mixBuffer.GetCurrentPosition` (`posResult`,
`some writePos` on success), `mem.WriteRaw` (cannot fail, no return value),
`mixBuffer.Unlock` (`unlockOk`).
-/

structure updateEnv where
  lockOk : Bool
  posResult : Option ℤ
  unlockOk : Bool
  deriving DecidableEq, Repr

inductive updateResult where
  | ok
  | err
  | panicked
  deriving DecidableEq, Repr

/-- What one call of `update` leaves behind: how it returned, the state of
the sound system at return, whether the hardware ring-buffer region lock was
still held at return, and the frames passed to `WriteRaw` (if reached). -/
structure updateExit where
  result : updateResult
  state : soundSystem
  lockHeld : Bool
  written : Option (List soundSample)
  deriving DecidableEq, Repr

/-- Go `soundSystem.update`, path by path:
* `Lock` fails → `return err` (no lock held);
* `GetCurrentPosition` fails → `return err` — the source does **not** unlock
  on this path, so the exit has `lockHeld := true`;
* `writeSampleDist` panics → the panic propagates with the region locked;
* advance + render + clip + `WriteRaw`, then `Unlock` fails → `return err`
  with the positions already advanced but `lastWritePos`, the reclamation
  and the `lastSpeed` snapshot not performed;
* success → reclamation pass, `lastSpeed = speed` snapshot for the
  survivors, `lastWritePos = writePos`. -/
def soundSystem.update (s : soundSystem) (env : updateEnv) : updateExit :=
  if env.lockOk = false then
    { result := .err, state := s, lockHeld := false, written := none }
  else
    match env.posResult with
    | none => { result := .err, state := s, lockHeld := true, written := none }
    | some writePos =>
      match s.writeSampleDist s.lastWritePos writePos with
      | none =>
        { result := .panicked, state := s, lockHeld := true, written := none }
      | some playedSamples =>
        let advanced := s.playingSounds.map (advanceSound playedSamples)
        let outBuf := (List.range soundWriteAheadSamples).map
          (fun i => clipFrame (mixAt advanced i))
        if env.unlockOk = false then
          { result := .err, state := { s with playingSounds := advanced },
            lockHeld := false, written := some outBuf }
        else
          let rq := reclaimLoop [] s.queue advanced
          let final := rq.1.map (fun st => { st with lastSpeed := st.speed })
          let s' := { s with playingSounds := final
                             queue := rq.2
                             lastWritePos := writePos }
          { result := .ok, state := s', lockHeld := false,
            written := some outBuf }

/-!
## Claims about `update`'s error paths and clipping
-/

/-- **C2, failing path.**  When `Lock` succeeds but `GetCurrentPosition`
fails, `update` returns the error **without** releasing the ring-buffer
region lock: the exit has `lockHeld = true`.  This contradicts the claim
that the lock is released on every exit path of `update`. -/
theorem c2_lock_leak_on_cursor_error :
    initialSoundSystem.update
        { lockOk := true, posResult := none, unlockOk := true }
      = { result := .err, state := initialSoundSystem, lockHeld := true,
          written := none } := by
  rfl

/-- **C8.**  With `lastWritePos` and the cursor both inside the ring buffer,
the `d` computed by `writeSampleDist` is the circular byte distance modulo
the buffer size; `writeSampleDist` panics (`none`) exactly when that
distance is not divisible by the 4-byte frame size; when it is divisible the
returned `samplesElapsed` is the distance divided by 4; and a panicking
`writeSampleDist` makes `update` abort with nothing written and the state
untouched (mixing does not continue). -/
theorem c8_partial_frame_abort (s : soundSystem) (a b : ℤ)
    (h0 : 0 ≤ a) (h1 : a < s.mixBufferSize)
    (h2 : 0 ≤ b) (h3 : b < s.mixBufferSize) :
    (s.writeSampleDist a b = none
        ↔ ¬ (4 ∣ circularByteDist s.mixBufferSize a b))
    ∧ (4 ∣ circularByteDist s.mixBufferSize a b →
        s.writeSampleDist a b
          = some (circularByteDist s.mixBufferSize a b / 4))
    ∧ (∀ (env : updateEnv) (wp : ℤ), env.lockOk = true →
        env.posResult = some wp →
        s.writeSampleDist s.lastWritePos wp = none →
        s.update env = { result := .panicked, state := s, lockHeld := true,
                         written := none }) := by
  have hdist : circularByteDist s.mixBufferSize a b
      = (if b - a < 0 then s.mixBufferSize - a + b else b - a) := by
    unfold circularByteDist
    split
    · have hmod : (b - a) % s.mixBufferSize
          = (b - a + s.mixBufferSize) % s.mixBufferSize := by
        simp [Int.add_emod]
      rw [hmod, Int.emod_eq_of_lt (by linarith) (by linarith)]
      ring
    · exact Int.emod_eq_of_lt (by linarith) (by linarith)
  have hd0 : 0 ≤ (if b - a < 0 then s.mixBufferSize - a + b else b - a) := by
    split <;> linarith
  have hws : s.writeSampleDist a b
      = (if circularByteDist s.mixBufferSize a b % 4 ≠ 0 then none
         else some (circularByteDist s.mixBufferSize a b / 4)) := by
    rw [soundSystem.writeSampleDist, hdist,
      Int.tmod_eq_emod hd0 (by norm_num), Int.tdiv_eq_ediv hd0 (by norm_num)]
  refine ⟨?_, ?_, ?_⟩
  · rw [hws, Int.dvd_iff_emod_eq_zero]
    by_cases h : circularByteDist s.mixBufferSize a b % 4 = 0
    · simp [h]
    · simp [h]
  · intro h
    rw [Int.dvd_iff_emod_eq_zero] at h
    rw [hws]
    simp [h]
  · intro env wp hlock hpos hnone
    rw [soundSystem.update, hlock, hpos]
    simp only [Bool.true_eq_false, if_false]
    rw [hnone]

/-- Witness for `c8_partial_frame_abort`: buffer of 352800 bytes,
`lastWritePos = 100`, cursor at `103` — distance 3 bytes, not a whole
frame. -/
theorem c8_partial_frame_abort_witness :
    ((0 : ℤ) ≤ 100 ∧ (100 : ℤ) < initialSoundSystem.mixBufferSize
      ∧ (0 : ℤ) ≤ 103 ∧ (103 : ℤ) < initialSoundSystem.mixBufferSize)
    ∧ (initialSoundSystem.writeSampleDist 100 103 = none
        ↔ ¬ (4 ∣ circularByteDist initialSoundSystem.mixBufferSize 100 103)) :=
  ⟨⟨by decide, by decide, by decide, by decide⟩,
    (c8_partial_frame_abort initialSoundSystem 100 103
      (by decide) (by decide) (by decide) (by decide)).1⟩

/-- **C9.**  The narrowing of the 32-bit accumulator to the `int16` output
is exact hard clipping into `[-32768, 32767]`: `40000 ↦ 32767`,
`-40000 ↦ -32768`, the two boundary values map to themselves, every in-range
value passes through unchanged, and `update`'s output frame applies this
clamp to each channel of the accumulator frame. -/
theorem c9_hard_clip :
    clipToInt16 40000 = 32767
    ∧ clipToInt16 (-40000) = -32768
    ∧ clipToInt16 32767 = 32767
    ∧ clipToInt16 (-32768) = -32768
    ∧ (∀ x : ℤ, -32768 ≤ x → x ≤ 32767 → clipToInt16 x = x)
    ∧ (∀ m : mixSample,
        clipFrame m
          = { left := clipToInt16 m.left, right := clipToInt16 m.right }) := by
  refine ⟨by decide, by decide, by decide, by decide, ?_, fun m => rfl⟩
  intro x hlo hhi
  simp only [clipToInt16]
  split_ifs <;> omega

/-- Witness for `c9_hard_clip` at the in-range value `1234`. -/
theorem c9_hard_clip_witness :
    ((-32768 : ℤ) ≤ 1234 ∧ (1234 : ℤ) ≤ 32767) ∧ clipToInt16 1234 = 1234 :=
  ⟨⟨by decide, by decide⟩, c9_hard_clip.2.2.2.2.1 1234 (by decide) (by decide)⟩

/-- **C1, failing input.**  One tick's reclamation pass on the state
* `playingSounds = [A, B, D]` with `A = handle 1` finished (non-looping,
  `pos = 5` on a 2-sample clip), `B = handle 2` and `D = handle 4` queued
  looping sounds,
* `queue = [(1, 2), (3, 4)]`.

The link `(1, 2)` fires: `B.queued` is correctly set to `false`.  But
because the source compacts `s.queue` in place without ever truncating it to
`queueN`, the queue afterwards is `[(3, 4), (3, 4)]` — the surviving link
duplicated — instead of the `[(3, 4)]` the claim requires ("the chain list
contains exactly the links whose afterHandle did not match any reclaimed
instance, with no stale or duplicated entries remaining"). -/
theorem c1_chain_queue_never_truncated :
    reclaimLoop []
        [((1 : ℤ), (2 : ℤ)), (3, 4)]
        [{ handle := 1, samples := [⟨0, 0⟩, ⟨0, 0⟩], pos := 5, lastSpeed := 1,
           speed := 1, looping := false, queued := false },
         { handle := 2, samples := [⟨0, 0⟩, ⟨0, 0⟩], pos := 0, lastSpeed := 1,
           speed := 1, looping := true, queued := true },
         { handle := 4, samples := [⟨0, 0⟩, ⟨0, 0⟩], pos := 0, lastSpeed := 1,
           speed := 1, looping := true, queued := true }]
      = ([{ handle := 2, samples := [⟨0, 0⟩, ⟨0, 0⟩], pos := 0, lastSpeed := 1,
            speed := 1, looping := true, queued := false },
          { handle := 4, samples := [⟨0, 0⟩, ⟨0, 0⟩], pos := 0, lastSpeed := 1,
            speed := 1, looping := true, queued := true }],
         [(3, 4), (3, 4)])
    ∧ [((3 : ℤ), (4 : ℤ)), (3, 4)] ≠ [(3, 4)] := by
  constructor
  · norm_num [reclaimLoop, queueScan, setQueuedFalseMid, setQueuedFalse,
      soundState.isOver]
  · decide

/-!
## The caller-facing play API

`playLoopingAndQueued` loads the raw sample data and registers a new
instance.  Loading and decoding are external collaborators, so the decoded
outcome is passed as a parameter `load` (`.error e` models a failed
`loadRawSamples`; `.ok samples` the decoded stereo frames of the cast
`unsafe.Slice((*soundSample)(unsafe.Pointer(&raw[0])), len(raw)/4)`).
Go panics on `&raw[0]` when the decoded byte slice is empty; `none` models
that panic.
-/

def soundSystem.playLoopingAndQueued (s : soundSystem)
    (load : Except String (List soundSample)) (looping queued : Bool) :
    Option ((ℤ × Option String) × soundSystem) :=
  match load with
  | .error e => some ((invalidSoundHandle, some e), s)
  | .ok samples =>
    if samples.isEmpty then none
    else
      let handle := s.nextHandle
      let st : soundState :=
        { handle := handle, samples := samples, pos := 0, lastSpeed := 0,
          speed := 1, looping := looping, queued := queued }
      let s' := { s with nextHandle := s.nextHandle + 1
                         playingSounds := s.playingSounds ++ [st] }
      some ((handle, none), s')

/-- Go `soundSystem.play`: `playLoopingAndQueued(path, false, false)`. -/
def soundSystem.play (s : soundSystem)
    (load : Except String (List soundSample)) :
    Option ((ℤ × Option String) × soundSystem) :=
  s.playLoopingAndQueued load false false

/-- Go `soundSystem.loop`: `playLoopingAndQueued(path, true, false)`. -/
def soundSystem.loop (s : soundSystem)
    (load : Except String (List soundSample)) :
    Option ((ℤ × Option String) × soundSystem) :=
  s.playLoopingAndQueued load true false

/-- Go `soundSystem.queueLoopAfter`:
```
handle, err := s.playLoopingAndQueued(path, true, true)
if err != nil { return invalidSoundHandle, nil }
s.queue = append(s.queue, consecutiveSounds{atEndOf, handle})
return handle, nil
```
Note the error path returns `invalidSoundHandle` with a `nil` error. -/
def soundSystem.queueLoopAfter (s : soundSystem)
    (load : Except String (List soundSample)) (atEndOf : ℤ) :
    Option ((ℤ × Option String) × soundSystem) :=
  match s.playLoopingAndQueued load true true with
  | none => none
  | some ((_, some _), s') => some ((invalidSoundHandle, none), s')
  | some ((handle, none), s') =>
    some ((handle, none), { s' with queue := s'.queue ++ [(atEndOf, handle)] })

/-- **C4.**  `queueLoopAfter` swallows load/decode failures: on a failed
load it returns the reserved invalid handle `0` with a `nil` error and
leaves the state unchanged (no playback instance and no chain link is
added); and on every input on which it returns at all, the returned error is
`nil`. -/
theorem c4_queueLoopAfter_swallows_load_errors :
    (∀ (s : soundSystem) (e : String) (atEndOf : ℤ),
      s.queueLoopAfter (.error e) atEndOf
        = some ((invalidSoundHandle, none), s))
    ∧ (∀ (s : soundSystem) (load : Except String (List soundSample))
        (atEndOf : ℤ) (r : (ℤ × Option String) × soundSystem),
        s.queueLoopAfter load atEndOf = some r → r.1.2 = none) := by
  constructor
  · intro s e atEndOf
    rfl
  · intro s load atEndOf r h
    rw [soundSystem.queueLoopAfter] at h
    split at h
    · exact Option.noConfusion h
    · injection h with h'
      subst h'
      rfl
    · injection h with h'
      subst h'
      rfl

/-- Witness for `c4_queueLoopAfter_swallows_load_errors` on a concrete
call whose load fails. -/
theorem c4_queueLoopAfter_witness :
    ((((invalidSoundHandle, (none : Option String)), initialSoundSystem)) :
        (ℤ × Option String) × soundSystem).1.2 = none :=
  c4_queueLoopAfter_swallows_load_errors.2 initialSoundSystem
    (.error ("boom")) 5 _ (by rfl)

/-!
## Handle monotonicity across call sequences (for C3)

A call sequence against the mixer API is a list of operations, each carrying
the outcome its load would produce.  `issuedHandles` collects the handles of
the calls that actually issued an instance: for `play`/`loop` those that
returned a `nil` error, for `queueAfter` those that returned a non-invalid
handle (its failure path returns `(0, nil)`, see C4).  A panicking call
aborts the whole run.
-/

inductive soundOp where
  | playOp (load : Except String (List soundSample))
  | loopOp (load : Except String (List soundSample))
  | queueAfterOp (atEndOf : ℤ) (load : Except String (List soundSample))

def stepOp (s : soundSystem) :
    soundOp → Option ((ℤ × Option String) × soundSystem)
  | .playOp load => s.play load
  | .loopOp load => s.loop load
  | .queueAfterOp atEndOf load => s.queueLoopAfter load atEndOf

def issuedOf (op : soundOp) (r : ℤ × Option String) :
    List ℤ :=
  match op with
  | .playOp _ => if r.2 = none then [r.1] else []
  | .loopOp _ => if r.2 = none then [r.1] else []
  | .queueAfterOp _ _ => if r.1 ≠ invalidSoundHandle then [r.1] else []

def issuedHandles (s : soundSystem) : List soundOp → List ℤ
  | [] => []
  | op :: rest =>
    match stepOp s op with
    | none => []
    | some (r, s') => issuedOf op r ++ issuedHandles s' rest

/-- Every returning call either leaves the state unchanged and issues
nothing, or returns the current `nextHandle`, bumps it by one, and issues at
most that handle. -/
theorem stepOp_spec (s : soundSystem) (op : soundOp)
    (r : ℤ × Option String) (s' : soundSystem)
    (h : stepOp s op = some (r, s')) :
    (s' = s ∧ issuedOf op r = [])
    ∨ (r.1 = s.nextHandle ∧ s'.nextHandle = s.nextHandle + 1
        ∧ (issuedOf op r = [] ∨ issuedOf op r = [s.nextHandle])) := by
  cases op with
  | playOp load =>
    rw [stepOp, soundSystem.play] at h
    cases load with
    | error e =>
      simp only [soundSystem.playLoopingAndQueued] at h
      injection h with h'
      injection h' with hr hs
      subst hr
      subst hs
      left
      exact ⟨rfl, by simp [issuedOf]⟩
    | ok samples =>
      simp only [soundSystem.playLoopingAndQueued] at h
      by_cases hempty : samples.isEmpty
      · rw [if_pos hempty] at h
        exact Option.noConfusion h
      · rw [if_neg hempty] at h
        injection h with h'
        injection h' with hr hs
        subst hr
        subst hs
        right
        exact ⟨rfl, rfl, Or.inr (by simp [issuedOf])⟩
  | loopOp load =>
    rw [stepOp, soundSystem.loop] at h
    cases load with
    | error e =>
      simp only [soundSystem.playLoopingAndQueued] at h
      injection h with h'
      injection h' with hr hs
      subst hr
      subst hs
      left
      exact ⟨rfl, by simp [issuedOf]⟩
    | ok samples =>
      simp only [soundSystem.playLoopingAndQueued] at h
      by_cases hempty : samples.isEmpty
      · rw [if_pos hempty] at h
        exact Option.noConfusion h
      · rw [if_neg hempty] at h
        injection h with h'
        injection h' with hr hs
        subst hr
        subst hs
        right
        exact ⟨rfl, rfl, Or.inr (by simp [issuedOf])⟩
  | queueAfterOp atEndOf load =>
    rw [stepOp] at h
    cases load with
    | error e =>
      simp only [soundSystem.queueLoopAfter,
        soundSystem.playLoopingAndQueued] at h
      injection h with h'
      injection h' with hr hs
      subst hr
      subst hs
      left
      exact ⟨rfl, by simp [issuedOf, invalidSoundHandle]⟩
    | ok samples =>
      simp only [soundSystem.queueLoopAfter,
        soundSystem.playLoopingAndQueued] at h
      by_cases hempty : samples.isEmpty
      · rw [if_pos hempty] at h
        exact Option.noConfusion h
      · rw [if_neg hempty] at h
        injection h with h'
        injection h' with hr hs
        subst hr
        subst hs
        right
        refine ⟨rfl, rfl, ?_⟩
        by_cases hz : s.nextHandle = invalidSoundHandle
        · left
          simp [issuedOf, hz]
        · right
          simp [issuedOf, hz]

/-- Handles issued from state `s` are all at least `s.nextHandle`. -/
theorem issuedHandles_lb (ops : List soundOp) (s : soundSystem)
    (hd : ℤ) (hmem : hd ∈ issuedHandles s ops) :
    s.nextHandle ≤ hd := by
  induction ops generalizing s with
  | nil => simp [issuedHandles] at hmem
  | cons op rest ih =>
    rw [issuedHandles] at hmem
    cases hstep : stepOp s op with
    | none =>
      rw [hstep] at hmem
      simp at hmem
    | some rs =>
      obtain ⟨r, s'⟩ := rs
      rw [hstep] at hmem
      simp only [List.mem_append] at hmem
      rcases stepOp_spec s op r s' hstep with ⟨hs, hiss⟩ | ⟨_, hnext, hiss⟩
      · rcases hmem with hmem | hmem
        · rw [hiss] at hmem
          simp at hmem
        · rw [← hs]
          exact ih s' hmem
      · rcases hmem with hmem | hmem
        · rcases hiss with hiss | hiss
          · rw [hiss] at hmem
            simp at hmem
          · rw [hiss] at hmem
            simp at hmem
            omega
        · have := ih s' hmem
          omega

/-- The handles issued from any state are pairwise strictly increasing in
issue order. -/
theorem issuedHandles_pairwise (ops : List soundOp) (s : soundSystem) :
    (issuedHandles s ops).Pairwise (· < ·) := by
  induction ops generalizing s with
  | nil => simp [issuedHandles]
  | cons op rest ih =>
    rw [issuedHandles]
    cases hstep : stepOp s op with
    | none => simp
    | some rs =>
      obtain ⟨r, s'⟩ := rs
      rw [List.pairwise_append]
      rcases stepOp_spec s op r s' hstep with ⟨_, hiss⟩ | ⟨_, hnext, hiss⟩
      · rw [hiss]
        exact ⟨List.Pairwise.nil, ih s', by simp⟩
      · rcases hiss with hiss | hiss
        · rw [hiss]
          exact ⟨List.Pairwise.nil, ih s', by simp⟩
        · rw [hiss]
          refine ⟨by simp, ih s', ?_⟩
          intro x hx y hy
          simp at hx
          subst hx
          have := issuedHandles_lb rest s' y hy
          omega

/-- **C3.**  `initSoundSystem` starts the handle counter at 1, and for any
state whose counter is at least 1 (as every reachable state's is), the
handles issued by any sequence of `play`/`loop`/`queueAfter` calls are
pairwise strictly increasing in call order and never equal to the reserved
invalid handle `0`. -/
theorem c3_handles_strictly_increasing (s : soundSystem) (ops : List soundOp)
    (h1 : 1 ≤ s.nextHandle) :
    initialSoundSystem.nextHandle = 1
    ∧ (issuedHandles s ops).Pairwise (· < ·)
    ∧ ∀ hd ∈ issuedHandles s ops, hd ≠ invalidSoundHandle := by
  refine ⟨rfl, issuedHandles_pairwise ops s, ?_⟩
  intro hd hmem
  have := issuedHandles_lb ops s hd hmem
  rw [invalidSoundHandle]
  omega

/-- Witness for `c3_handles_strictly_increasing`: a `play`, a failed `loop`
and a `queueAfter` from the initial state. -/
theorem c3_handles_witness :
    1 ≤ initialSoundSystem.nextHandle
    ∧ (initialSoundSystem.nextHandle = 1
      ∧ (issuedHandles initialSoundSystem
          [.playOp (.ok [⟨1, 1⟩]), .loopOp (.error ("gone")),
           .queueAfterOp 1 (.ok [⟨2, 2⟩])]).Pairwise (· < ·)
      ∧ ∀ hd ∈ issuedHandles initialSoundSystem
          [.playOp (.ok [⟨1, 1⟩]), .loopOp (.error ("gone")),
           .queueAfterOp 1 (.ok [⟨2, 2⟩])], hd ≠ invalidSoundHandle) :=
  ⟨by decide,
    c3_handles_strictly_increasing initialSoundSystem
      [.playOp (.ok [⟨1, 1⟩]), .loopOp (.error ("gone")),
       .queueAfterOp 1 (.ok [⟨2, 2⟩])] (by decide)⟩

/-!
## The catch-up / look-ahead speed split of `update` (for C5)
-/

/-- **C5.**  On a successful `update` tick with `samplesElapsed = played`:
the position of every non-queued instance is advanced by
`played * lastSpeed` — the speed snapshotted at the end of the previous
tick — (then wrapped if looping); the frames written to the hardware are the
clamped accumulator of the advanced sounds, whose source position for output
slot `i` is `pos + i * speed` with the *current* `speed` field; and after
rendering and reclamation every surviving instance has
`lastSpeed = speed`. -/
theorem c5_advance_lastSpeed_render_speed (s : soundSystem) (env : updateEnv)
    (wp played : ℤ)
    (hlock : env.lockOk = true) (hpos : env.posResult = some wp)
    (hunlock : env.unlockOk = true)
    (hdist : s.writeSampleDist s.lastWritePos wp = some played) :
    ((s.update env).result = .ok)
    ∧ ((s.update env).written = some ((List.range soundWriteAheadSamples).map
        (fun i => clipFrame (mixAt (s.playingSounds.map (advanceSound played)) i))))
    ∧ (∀ st ∈ s.playingSounds, st.queued = false →
        (advanceSound played st).pos =
          (if st.looping
            then wrapSoundPos (st.pos + (played : ℚ) * st.lastSpeed)
              st.samples.length
            else st.pos + (played : ℚ) * st.lastSpeed))
    ∧ (∀ (st : soundState) (i : ℕ), st.queued = false → st.looping = false →
        contribution st i =
          (if 0 ≤ round (st.pos + (i : ℚ) * st.speed)
              ∧ round (st.pos + (i : ℚ) * st.speed) < (st.samples.length : ℤ)
            then { left := (st.samples.getD
                      (round (st.pos + (i : ℚ) * st.speed)).toNat ⟨0, 0⟩).left,
                   right := (st.samples.getD
                      (round (st.pos + (i : ℚ) * st.speed)).toNat ⟨0, 0⟩).right }
            else { left := 0, right := 0 }))
    ∧ (∀ st' ∈ (s.update env).state.playingSounds, st'.lastSpeed = st'.speed) := by
  have hupd : s.update env =
      { result := .ok,
        state := { s with
          playingSounds := (reclaimLoop [] s.queue
              (s.playingSounds.map (advanceSound played))).1.map
            (fun st => { st with lastSpeed := st.speed })
          queue := (reclaimLoop [] s.queue
              (s.playingSounds.map (advanceSound played))).2
          lastWritePos := wp },
        lockHeld := false,
        written := some ((List.range soundWriteAheadSamples).map
          (fun i => clipFrame
            (mixAt (s.playingSounds.map (advanceSound played)) i))) } := by
    rw [soundSystem.update, hlock, hpos]
    simp [hdist, hunlock]
  refine ⟨by rw [hupd], by rw [hupd], ?_, ?_, ?_⟩
  · intro st _ hq
    simp [advanceSound, hq]
  · intro st i hq hl
    simp [contribution, hq, hl]
  · intro st' hmem
    rw [hupd] at hmem
    simp only [List.mem_map] at hmem
    obtain ⟨a, _, rfl⟩ := hmem
    rfl

/-- Witness for `c5_advance_lastSpeed_render_speed` on the initial state
with the cursor at byte 400 (100 elapsed frames). -/
theorem c5_advance_witness :
    initialSoundSystem.writeSampleDist initialSoundSystem.lastWritePos 400
        = some 100
    ∧ (((initialSoundSystem.update
          { lockOk := true, posResult := some 400, unlockOk := true }).result
            = .ok)
      ∧ ((initialSoundSystem.update
          { lockOk := true, posResult := some 400, unlockOk := true }).written
            = some ((List.range soundWriteAheadSamples).map
          (fun i => clipFrame
            (mixAt (initialSoundSystem.playingSounds.map (advanceSound 100)) i))))
      ∧ (∀ st ∈ initialSoundSystem.playingSounds, st.queued = false →
          (advanceSound 100 st).pos =
            (if st.looping
              then wrapSoundPos (st.pos + (100 : ℚ) * st.lastSpeed)
                st.samples.length
              else st.pos + (100 : ℚ) * st.lastSpeed))
      ∧ (∀ (st : soundState) (i : ℕ), st.queued = false → st.looping = false →
          contribution st i =
            (if 0 ≤ round (st.pos + (i : ℚ) * st.speed)
                ∧ round (st.pos + (i : ℚ) * st.speed) < (st.samples.length : ℤ)
              then { left := (st.samples.getD
                        (round (st.pos + (i : ℚ) * st.speed)).toNat ⟨0, 0⟩).left,
                     right := (st.samples.getD
                        (round (st.pos + (i : ℚ) * st.speed)).toNat ⟨0, 0⟩).right }
              else { left := 0, right := 0 }))
      ∧ (∀ st' ∈ (initialSoundSystem.update
            { lockOk := true, posResult := some 400, unlockOk := true
            }).state.playingSounds, st'.lastSpeed = st'.speed)) :=
  ⟨by decide,
    c5_advance_lastSpeed_render_speed initialSoundSystem
      { lockOk := true, posResult := some 400, unlockOk := true } 400 100
      rfl rfl rfl (by decide)⟩

/-!
## What the reclamation pass does to the sound list (for C7)

`setQueuedFalse` only ever touches the `queued` flag.  `soundCore` is a
sound state with the `queued` flag erased; the reclamation pass, projected
to cores, is exactly "keep the sounds that are not over".
-/

structure soundCore where
  handle : ℤ
  samples : List soundSample
  pos : ℚ
  lastSpeed : ℚ
  speed : ℚ
  looping : Bool
  deriving DecidableEq, Repr

def soundState.core (st : soundState) : soundCore :=
  { handle := st.handle, samples := st.samples, pos := st.pos,
    lastSpeed := st.lastSpeed, speed := st.speed, looping := st.looping }

theorem isOver_eq_of_core {a b : soundState} (h : a.core = b.core) :
    a.isOver = b.isOver := by
  have h1 : a.looping = b.looping := congrArg soundCore.looping h
  have h2 : a.samples = b.samples := congrArg soundCore.samples h
  have h3 : a.pos = b.pos := congrArg soundCore.pos h
  rw [soundState.isOver, soundState.isOver, h1, h2, h3]

theorem setQueuedFalse_core (h : ℤ) (l : List soundState) :
    (setQueuedFalse h l).map soundState.core = l.map soundState.core := by
  induction l with
  | nil => rfl
  | cons st rest ih =>
    rw [setQueuedFalse]
    split
    · rfl
    · simp [ih]

theorem setQueuedFalseMid_core (h : ℤ) (survivors : List soundState)
    (current : soundState) (rest : List soundState) :
    (setQueuedFalseMid h survivors current rest).1.map soundState.core
        = survivors.map soundState.core
    ∧ (setQueuedFalseMid h survivors current rest).2.map soundState.core
        = rest.map soundState.core := by
  rw [setQueuedFalseMid]
  split_ifs <;> simp [setQueuedFalse_core]

theorem foldFired_core (current : soundState) (fired : List ℤ)
    (p : List soundState × List soundState) :
    (fired.foldl (fun p t => setQueuedFalseMid t p.1 current p.2) p).1.map
        soundState.core = p.1.map soundState.core
    ∧ (fired.foldl (fun p t => setQueuedFalseMid t p.1 current p.2) p).2.map
        soundState.core = p.2.map soundState.core := by
  induction fired generalizing p with
  | nil => exact ⟨rfl, rfl⟩
  | cons t ts ih =>
    rw [List.foldl_cons]
    obtain ⟨ih1, ih2⟩ := ih (setQueuedFalseMid t p.1 current p.2)
    obtain ⟨hm1, hm2⟩ := setQueuedFalseMid_core t p.1 current p.2
    exact ⟨ih1.trans hm1, ih2.trans hm2⟩

theorem filter_map_core {l l' : List soundState}
    (h : l.map soundState.core = l'.map soundState.core) :
    (l.filter (fun st => !st.isOver)).map soundState.core
      = (l'.filter (fun st => !st.isOver)).map soundState.core := by
  induction l generalizing l' with
  | nil =>
    cases l' with
    | nil => rfl
    | cons b bs => exact absurd h (by simp)
  | cons a as ih =>
    cases l' with
    | nil => exact absurd h (by simp)
    | cons b bs =>
      simp only [List.map_cons, List.cons.injEq] at h
      obtain ⟨hab, hrest⟩ := h
      have hov : a.isOver = b.isOver := isOver_eq_of_core hab
      rw [List.filter_cons, List.filter_cons, ← hov]
      cases ha : a.isOver with
      | false => simp [hab, ih hrest]
      | true => simpa using ih hrest

/-- Projected to cores, the reclamation pass keeps exactly the survivors
followed by the not-over sounds, in order. -/
theorem reclaimLoop_core (survivors : List soundState)
    (qs : List consecutiveSounds) (l : List soundState) :
    (reclaimLoop survivors qs l).1.map soundState.core
      = (survivors ++ l.filter (fun st => !st.isOver)).map soundState.core := by
  induction survivors, qs, l using reclaimLoop.induct with
  | case1 survivors qs => simp [reclaimLoop]
  | case2 survivors qs st rest hover ih =>
    rw [reclaimLoop, if_pos hover]
    rw [ih]
    obtain ⟨h1, h2⟩ := foldFired_core st
      (queueScan st.handle qs qs 0 []).2 (survivors, rest)
    simp only [List.map_append] at *
    rw [h1, filter_map_core h2]
    congr 1
    rw [List.filter_cons, hover]
    simp
  | case3 survivors qs st rest hover ih =>
    rw [reclaimLoop, if_neg hover]
    rw [ih]
    rw [List.filter_cons]
    simp only [Bool.not_eq_true] at hover
    simp [hover]

/-!
## Non-looping completion (for C7)
-/

theorem advanceSound_handle (p : ℤ) (st : soundState) :
    (advanceSound p st).handle = st.handle := by
  rw [advanceSound]
  split <;> rfl

theorem advanceSound_samples (p : ℤ) (st : soundState) :
    (advanceSound p st).samples = st.samples := by
  rw [advanceSound]
  split <;> rfl

theorem advanceSound_speed (p : ℤ) (st : soundState) :
    (advanceSound p st).speed = st.speed := by
  rw [advanceSound]
  split <;> rfl

theorem advanceSound_looping (p : ℤ) (st : soundState) :
    (advanceSound p st).looping = st.looping := by
  rw [advanceSound]
  split <;> rfl

theorem advanceSound_pos_plain (p : ℤ) (st : soundState)
    (hq : st.queued = false) (hl : st.looping = false) :
    (advanceSound p st).pos = st.pos + (p : ℚ) * st.lastSpeed := by
  simp [advanceSound, hq, hl]

/-- With both byte offsets inside the ring buffer, a non-panicking
`writeSampleDist` returns a non-negative frame count. -/
theorem writeSampleDist_nonneg (s : soundSystem) (a b played : ℤ)
    (h0 : 0 ≤ a) (h1 : a < s.mixBufferSize)
    (h2 : 0 ≤ b) (h3 : b < s.mixBufferSize)
    (h : s.writeSampleDist a b = some played) : 0 ≤ played := by
  simp only [soundSystem.writeSampleDist] at h
  split at h <;> split at h <;>
    first
      | exact Option.noConfusion h
      | (injection h with h'
         rw [← h']
         exact Int.tdiv_nonneg (by omega) (by norm_num))

/-- **C7.**  For a non-looping, non-queued instance `st` with
`speed = lastSpeed = sp > 0` (the steady state under a constant positive
speed), on a successful `update` tick with `samplesElapsed = played`:
its position advances to `pos' = pos + played * sp ≥ pos` (non-decreasing);
if `pos' < len(clip) - 1` an instance with the same handle, position `pos'`
and speed `sp` remains in the registry; and if `pos' ≥ len(clip) - 1` — the
first tick on which the end is reached, since the test runs every tick — no
instance with that handle remains: it is removed exactly then. -/
theorem c7_nonlooping_removed_at_end (s : soundSystem) (env : updateEnv)
    (wp played : ℤ) (st : soundState) (sp : ℚ)
    (hlock : env.lockOk = true) (hpos : env.posResult = some wp)
    (hunlock : env.unlockOk = true)
    (hdist : s.writeSampleDist s.lastWritePos wp = some played)
    (hlw0 : 0 ≤ s.lastWritePos) (hlw1 : s.lastWritePos < s.mixBufferSize)
    (hwp0 : 0 ≤ wp) (hwp1 : wp < s.mixBufferSize)
    (hmem : st ∈ s.playingSounds) (hnl : st.looping = false)
    (hnq : st.queued = false)
    (hsp : st.speed = sp) (hls : st.lastSpeed = sp) (hsp0 : 0 < sp)
    (hnd : (s.playingSounds.map (fun st => st.handle)).Nodup) :
    (st.pos ≤ st.pos + (played : ℚ) * sp)
    ∧ (st.pos + (played : ℚ) * sp < (st.samples.length : ℚ) - 1 →
        ∃ st' ∈ (s.update env).state.playingSounds,
          st'.handle = st.handle ∧ st'.pos = st.pos + (played : ℚ) * sp
            ∧ st'.speed = sp ∧ st'.lastSpeed = sp)
    ∧ ((st.samples.length : ℚ) - 1 ≤ st.pos + (played : ℚ) * sp →
        ∀ st' ∈ (s.update env).state.playingSounds,
          st'.handle ≠ st.handle) := by
  have hplayed0 : 0 ≤ played :=
    writeSampleDist_nonneg s s.lastWritePos wp played hlw0 hlw1 hwp0 hwp1 hdist
  have hplayedQ : (0 : ℚ) ≤ (played : ℚ) := by exact_mod_cast hplayed0
  have hupd : s.update env =
      { result := .ok,
        state := { s with
          playingSounds := (reclaimLoop [] s.queue
              (s.playingSounds.map (advanceSound played))).1.map
            (fun st => { st with lastSpeed := st.speed })
          queue := (reclaimLoop [] s.queue
              (s.playingSounds.map (advanceSound played))).2
          lastWritePos := wp },
        lockHeld := false,
        written := some ((List.range soundWriteAheadSamples).map
          (fun i => clipFrame
            (mixAt (s.playingSounds.map (advanceSound played)) i))) } := by
    rw [soundSystem.update, hlock, hpos]
    simp [hdist, hunlock]
  have hadvpos : (advanceSound played st).pos
      = st.pos + (played : ℚ) * sp := by
    rw [advanceSound_pos_plain played st hnq hnl, hls]
  refine ⟨by nlinarith, ?_, ?_⟩
  · intro hlt
    have hadvover : (advanceSound played st).isOver = false := by
      rw [soundState.isOver, advanceSound_looping, advanceSound_samples, hnl,
        hadvpos]
      simp [not_le.mpr hlt]
    have hmemf : advanceSound played st ∈
        (s.playingSounds.map (advanceSound played)).filter
          (fun st => !st.isOver) :=
      List.mem_filter.mpr ⟨List.mem_map_of_mem _ hmem, by simp [hadvover]⟩
    have hcmem : (advanceSound played st).core ∈
        (reclaimLoop [] s.queue
          (s.playingSounds.map (advanceSound played))).1.map
          soundState.core := by
      rw [reclaimLoop_core]
      simp only [List.nil_append]
      exact List.mem_map_of_mem _ hmemf
    obtain ⟨x, hxmem, hxcore⟩ := List.mem_map.mp hcmem
    refine ⟨{ x with lastSpeed := x.speed }, ?_, ?_, ?_, ?_, ?_⟩
    · rw [hupd]
      exact List.mem_map_of_mem _ hxmem
    · have := congrArg soundCore.handle hxcore
      simp only [soundState.core] at this
      rw [show ({ x with lastSpeed := x.speed } : soundState).handle
          = x.handle from rfl, this, advanceSound_handle]
    · have := congrArg soundCore.pos hxcore
      simp only [soundState.core] at this
      rw [show ({ x with lastSpeed := x.speed } : soundState).pos
          = x.pos from rfl, this, hadvpos]
    · have := congrArg soundCore.speed hxcore
      simp only [soundState.core] at this
      rw [show ({ x with lastSpeed := x.speed } : soundState).speed
          = x.speed from rfl, this, advanceSound_speed, hsp]
    · have := congrArg soundCore.speed hxcore
      simp only [soundState.core] at this
      rw [show ({ x with lastSpeed := x.speed } : soundState).lastSpeed
          = x.speed from rfl, this, advanceSound_speed, hsp]
  · intro hge st' hmem' heq
    rw [hupd] at hmem'
    simp only [List.mem_map] at hmem'
    obtain ⟨x, hxmem, rfl⟩ := hmem'
    have hxh : x.handle = st.handle := heq
    have hxcore : x.core ∈
        ((s.playingSounds.map (advanceSound played)).filter
          (fun st => !st.isOver)).map soundState.core := by
      have := reclaimLoop_core [] s.queue
        (s.playingSounds.map (advanceSound played))
      rw [List.nil_append] at this
      rw [← this]
      exact List.mem_map_of_mem _ hxmem
    obtain ⟨a, hamem, hacore⟩ := List.mem_map.mp hxcore
    obtain ⟨hainadv, hanotover⟩ := List.mem_filter.mp hamem
    obtain ⟨o, homem, rfl⟩ := List.mem_map.mp hainadv
    have hoh : o.handle = st.handle := by
      have h2 : (advanceSound played o).core.handle = x.core.handle := by
        rw [hacore]
      have h3 : (advanceSound played o).handle = x.handle := h2
      rw [← advanceSound_handle played o, h3, hxh]
    have host : o = st :=
      List.inj_on_of_nodup_map hnd homem hmem hoh
    subst host
    have hadvover : (advanceSound played o).isOver = true := by
      rw [soundState.isOver, advanceSound_looping, advanceSound_samples, hnl,
        hadvpos]
      simp [hge]
    rw [hadvover] at hanotover
    simp at hanotover

/-- Concrete inputs for the C7 witness. -/
def c7WitnessSound : soundState :=
  { handle := 1
    samples := [⟨0, 0⟩, ⟨0, 0⟩, ⟨0, 0⟩]
    pos := 0
    lastSpeed := 1
    speed := 1
    looping := false
    queued := false }

def c7WitnessSystem : soundSystem :=
  { mixBufferSize := 352800
    lastWritePos := 0
    playingSounds := [c7WitnessSound]
    nextHandle := 2
    queue := [] }

def c7WitnessEnv : updateEnv :=
  { lockOk := true
    posResult := some 400
    unlockOk := true }

/-- Witness for `c7_nonlooping_removed_at_end`: a 3-sample clip at
`pos = 0`, speed 1, 100 elapsed frames — the new position 100 is at least 2,
so this is the removal tick. -/
theorem c7_nonlooping_witness :
    ((c7WitnessSystem.writeSampleDist 0 400 = some 100)
    ∧ ((0 : ℚ) ≤ 0 + (100 : ℚ) * 1)
    ∧ ((0 : ℚ) + (100 : ℚ) * 1
          < ((c7WitnessSound.samples.length : ℚ) - 1) →
        ∃ st' ∈ (c7WitnessSystem.update c7WitnessEnv).state.playingSounds,
          st'.handle = c7WitnessSound.handle
            ∧ st'.pos = c7WitnessSound.pos + (100 : ℚ) * 1
            ∧ st'.speed = 1 ∧ st'.lastSpeed = 1)
    ∧ (((c7WitnessSound.samples.length : ℚ) - 1
          ≤ c7WitnessSound.pos + (100 : ℚ) * 1) →
        ∀ st' ∈ (c7WitnessSystem.update c7WitnessEnv).state.playingSounds,
          st'.handle ≠ c7WitnessSound.handle)) := by
  refine ⟨by decide, ?_⟩
  have h := c7_nonlooping_removed_at_end c7WitnessSystem c7WitnessEnv
    400 100 c7WitnessSound 1 rfl rfl rfl (by decide) (by decide) (by decide)
    (by decide) (by decide) (by decide) rfl rfl rfl rfl (by decide)
    (by decide)
  exact h

/-!
## Loading and caching (`loadRawSamples`, for C10)

The file system and the decoders are external collaborators:
* `fileResult` is the outcome of `assetFiles.ReadFile(path)`;
* `oggResult` the outcome of `oggvorbis.ReadAll` — interleaved float
  samples plus the stream format (sample rate and channel count);
* `mp3Result` the outcome of `mp3.NewDecoder` + `io.ReadAll`.  The go-mp3
  decoder's documented contract is that its output is always 44100-or-other
  rate, 16-bit, **2-channel** PCM (mono input is upmixed), so the sample
  rate is the only format datum the boundary exposes, and the only one the
  source checks.

Raw byte strings are modelled as `List ℤ` of byte values; the cache
`loadedSounds map[string][]byte` as an association list written exactly at
the one point the source writes it.
-/

structure oggFormat where
  sampleRate : ℤ
  channels : ℤ
  deriving DecidableEq, Repr

structure mp3Stream where
  sampleRate : ℤ
  readResult : Except String (List ℤ)
  deriving Repr

structure loadEnv where
  fileResult : Except String (List ℤ)
  oggResult : Except String (List ℚ × oggFormat)
  mp3Result : Except String mp3Stream
  deriving Repr

/-- Go `strings.HasSuffix(path, suffix)`, computed on the character lists
of the two strings (kernel-computable, unlike `String.endsWith`). -/
def goHasSuffix (path suffix : String) : Bool :=
  List.isPrefixOf suffix.data.reverse path.data.reverse

/-- The little-endian byte pair of an `int16` value
(`*(*int16)(unsafe.Pointer(&rawSoundData[j])) = sample`). -/
def int16LE (v : ℤ) : List ℤ := [(v.emod 65536).emod 256, (v.emod 65536).ediv 256]

/-- The ogg conversion loop: `sample := int16(data[i] * 32767)` for each
interleaved float sample, written little-endian into a byte buffer of
length `len(data)*2`.  (Go leaves the out-of-range float-to-int16 case
implementation-defined; the model truncates — no claim depends on it.) -/
def oggBytes (data : List ℚ) : List ℤ :=
  (data.map (fun d => int16LE (goTrunc (d * 32767)))).flatten

/-- Go `soundSystem.loadRawSamples`, with the cache passed explicitly:
cache lookup; `assetFiles.ReadFile`; dispatch on the path suffix
(`.raw` trusted as-is, `.ogg` decoded and checked for 44100 Hz and
2 channels, `.mp3` decoded and checked for 44100 Hz, anything else an
error); on success the decoded bytes are stored in the cache
(`s.loadedSounds[path] = rawSoundData`) — the single point that writes
the cache. -/
def loadRawSamples (env : loadEnv) (cache : List (String × List ℤ))
    (path : String) : Except String (List ℤ) × List (String × List ℤ) :=
  match cache.lookup path with
  | some samples => (.ok samples, cache)
  | none =>
    match env.fileResult with
    | .error e => (.error e, cache)
    | .ok soundFile =>
      match
        (if goHasSuffix path (".raw") then
          .ok soundFile
        else if goHasSuffix path (".ogg") then
          match env.oggResult with
          | .error e => .error e
          | .ok (data, format) =>
            if format.sampleRate ≠ 44100 then
              .error ("we expect ogg files to be 44100 Hz")
            else if format.channels ≠ 2 then
              .error ("we expect ogg files to have 2 channels")
            else .ok (oggBytes data)
        else if goHasSuffix path (".mp3") then
          match env.mp3Result with
          | .error e => .error e
          | .ok decoder =>
            if decoder.sampleRate ≠ 44100 then
              .error ("we expect mp3 files to be 44100 Hz")
            else decoder.readResult
        else (.error ("unknown file extension") :
          Except String (List ℤ))) with
      | .error e => (.error e, cache)
      | .ok rawSoundData => (.ok rawSoundData, (path, rawSoundData) :: cache)

/-- **C10.**  Format mismatches at the decoder boundary fail the load and
leave the clip cache untouched: every load that returns an error returns
the cache unchanged; an `.ogg` stream whose decoded format is not
44100 Hz / 2 channels is rejected; an `.mp3` stream whose decoded rate is
not 44100 Hz is rejected (the mp3 decoder boundary is fixed to 2 channels
by the library contract, so rate is its only format datum). -/
theorem c10_format_mismatch_not_cached :
    (∀ (env : loadEnv) (cache : List (String × List ℤ)) (path : String)
        (e : String) (cache' : List (String × List ℤ)),
      loadRawSamples env cache path = (.error e, cache') → cache' = cache)
    ∧ (∀ (env : loadEnv) (cache : List (String × List ℤ)) (path : String)
        (data : List ℚ) (format : oggFormat) (soundFile : List ℤ),
      cache.lookup path = none →
      env.fileResult = .ok soundFile →
      goHasSuffix path (".raw") = false →
      goHasSuffix path (".ogg") = true →
      env.oggResult = .ok (data, format) →
      format.sampleRate ≠ 44100 ∨ format.channels ≠ 2 →
      ∃ e, loadRawSamples env cache path = (.error e, cache))
    ∧ (∀ (env : loadEnv) (cache : List (String × List ℤ)) (path : String)
        (decoder : mp3Stream) (soundFile : List ℤ),
      cache.lookup path = none →
      env.fileResult = .ok soundFile →
      goHasSuffix path (".raw") = false →
      goHasSuffix path (".ogg") = false →
      goHasSuffix path (".mp3") = true →
      env.mp3Result = .ok decoder →
      decoder.sampleRate ≠ 44100 →
      loadRawSamples env cache path
        = (.error ("we expect mp3 files to be 44100 Hz"), cache)) := by
  refine ⟨?_, ?_, ?_⟩
  · intro env cache path e cache' h
    rw [loadRawSamples] at h
    split at h
    · injection h with h1 h2
      exact h2.symm
    · split at h
      · injection h with h1 h2
        exact h2.symm
      · split at h
        · injection h with h1 h2
          exact h2.symm
        · exact absurd (congrArg Prod.fst h) (by simp)
  · intro env cache path data format soundFile hcache hfile hraw hogg hfmt hbad
    rw [loadRawSamples, hcache, hfile, hraw, hogg, hfmt]
    simp only [Bool.false_eq_true, if_false, if_true]
    rcases hbad with hbad | hbad
    · rw [if_pos hbad]
      exact ⟨_, rfl⟩
    · by_cases hsr : format.sampleRate ≠ 44100
      · rw [if_pos hsr]
        exact ⟨_, rfl⟩
      · rw [if_neg hsr, if_pos hbad]
        exact ⟨_, rfl⟩
  · intro env cache path decoder soundFile hcache hfile hraw hogg hmp3 hdec
      hsr
    rw [loadRawSamples, hcache, hfile, hraw, hogg, hmp3, hdec]
    simp only [Bool.false_eq_true, if_false, if_true]
    rw [if_pos hsr]

/-- Witness for `c10_format_mismatch_not_cached`: a 48 kHz ogg stream. -/
theorem c10_format_mismatch_witness :
    (([] : List (String × List ℤ)).lookup ("a.ogg") = none
      ∧ goHasSuffix ("a.ogg") (".raw") = false
      ∧ goHasSuffix ("a.ogg") (".ogg") = true
      ∧ ((48000 : ℤ) ≠ 44100 ∨ (2 : ℤ) ≠ 2))
    ∧ ∃ e, loadRawSamples
        { fileResult := .ok [0]
          oggResult := .ok ([], { sampleRate := 48000, channels := 2 })
          mp3Result := .error ("unused") }
        [] ("a.ogg") = (.error e, []) :=
  ⟨⟨by decide, by decide, by decide, Or.inl (by decide)⟩,
    c10_format_mismatch_not_cached.2.1
      { fileResult := .ok [0]
        oggResult := .ok ([], { sampleRate := 48000, channels := 2 })
        mp3Result := .error ("unused") }
      [] ("a.ogg") [] { sampleRate := 48000, channels := 2 } [0]
      (by decide) rfl (by decide) (by decide) rfl (Or.inl (by decide))⟩

end Demo